import Mathlib

/-!
# Verification of the two reporting pipelines

This file gives a shallow embedding of the two Python scripts of the
repository and proves/refutes the specification claims about them.

* `SummaryVAfromCSV.py` (pipeline 1): reads a batch of CSV exports,
  deduplicates on the raw `(Name, Host, Port)` triple, filters by the risk
  allow-list, aggregates per-host and total counts, left-joins them and
  sorts by a custom risk precedence.
* `VAcompareNewIssue.py` (pipeline 2): builds a fingerprint set from the
  prior-period workbook, deduplicates each current-period sheet in place,
  inserts a Status column and labels each surviving row New/Existing, then
  folds per-sheet counts into three summary tables with grand totals.

Cells of a worksheet/CSV are modelled as `Option String`: `none` is an
empty cell (openpyxl `None` / pandas `NaN`) and `some s` is the string
rendering of the stored value.
-/

/-- A spreadsheet/CSV cell: `none` models an empty cell (`None`/`NaN`),
`some s` the string rendering of its value. -/
abbrev Cell := Option String

/-- A worksheet data row (the cells of one row, left to right, 0-based). -/
abbrev Row := List Cell

/-- `str.strip()`: drop leading and trailing whitespace characters. -/
def stripStr (s : String) : String :=
  String.mk
    (((s.data.dropWhile Char.isWhitespace).reverse.dropWhile
        Char.isWhitespace).reverse)

/-- `str.upper()`: upper-case every character. -/
def upperStr (s : String) : String :=
  String.mk (s.data.map Char.toUpper)

/-- Embeds `standardize` of `VAcompareNewIssue.py`: `None`/`NaN` become
`""`, any other value is rendered as a string, stripped and upper-cased. -/
def standardize (val : Cell) : String :=
  match val with
  | none => ""
  | some s => upperStr (stripStr s)

/-! ## Generic first-occurrence deduplication

Both pipelines drop later records sharing a fingerprint with an earlier
one (`drop_duplicates(..., keep='first')` in pipeline 1, the
`seen_in_q4` loop in pipeline 2).  `keepFirstByAux f seen l` keeps the
first element of `l` for each key `f a` not already in `seen`. -/

def keepFirstByAux {α κ : Type} [DecidableEq κ] (f : α → κ) :
    List κ → List α → List α
  | _, [] => []
  | seen, a :: l =>
    if f a ∈ seen then keepFirstByAux f seen l
    else a :: keepFirstByAux f (f a :: seen) l

/-- Keep the first occurrence (in input order) of each distinct key. -/
def keepFirstBy {α κ : Type} [DecidableEq κ] (f : α → κ) (l : List α) :
    List α :=
  keepFirstByAux f [] l

/-! ## Pipeline 1: `SummaryVAfromCSV.py` -/

/-- One CSV record of pipeline 1 (the columns the script touches).  Values
are kept as the raw strings pandas read; the `SourceFile` tag added by the
loader never takes part in dedup, grouping or output selection and is
omitted. -/
structure P1Record where
  name : String
  risk : String
  host : String
  port : String
deriving DecidableEq, Repr

/-- The dedup key of `df.drop_duplicates(subset=['Name', 'Host', 'Port'])`:
the raw (un-normalized) column values. -/
def p1Fingerprint (r : P1Record) : String × String × String :=
  (r.name, r.host, r.port)

/-- `drop_duplicates(subset=['Name', 'Host', 'Port'], keep='first')`. -/
def p1Dedup (recs : List P1Record) : List P1Record :=
  keepFirstBy p1Fingerprint recs

/-- `df['Risk'].isin(['Critical', 'High', 'Medium'])` (case-sensitive). -/
def riskAllowed (s : String) : Bool :=
  s = "Critical" || s = "High" || s = "Medium"

/-- Deduplicated then risk-filtered records (`filtered_df`). -/
def p1Filtered (recs : List P1Record) : List P1Record :=
  (p1Dedup recs).filter (fun r => riskAllowed r.risk)

/-- The `(Name, Risk, Host)` group key of `detail_df`. -/
def tripleOf (r : P1Record) : String × String × String :=
  (r.name, r.risk, r.host)

/-- The `(Name, Risk)` group key of `summary_df`. -/
def pairOf (r : P1Record) : String × String :=
  (r.name, r.risk)

/-- The distinct `(Name, Risk, Host)` group keys of `detail_df`.  pandas
returns group keys in sorted order; we keep first-occurrence order, which
is the same collection of keys and affects no claim (the final report is
re-sorted, and rows equal under the final sort key are not distinguished
by any claim). -/
def detailKeys (recs : List P1Record) : List (String × String × String) :=
  keepFirstBy (fun t => t) ((p1Filtered recs).map tripleOf)

/-- `Per_Host_Count`: the size of the `(Name, Risk, Host)` group. -/
def detailCount (recs : List P1Record) (t : String × String × String) : Nat :=
  ((p1Filtered recs).map tripleOf).countP (fun x => decide (x = t))

/-- The distinct `(Name, Risk)` group keys of `summary_df`. -/
def summaryKeys (recs : List P1Record) : List (String × String) :=
  keepFirstBy (fun p => p) ((p1Filtered recs).map pairOf)

/-- `Total_Count`: the size of the `(Name, Risk)` group. -/
def summaryCount (recs : List P1Record) (p : String × String) : Nat :=
  ((p1Filtered recs).map pairOf).countP (fun x => decide (x = p))

/-- `summary_df` as an association list from `(Name, Risk)` to
`Total_Count`. -/
def summaryList (recs : List P1Record) :
    List ((String × String) × Nat) :=
  (summaryKeys recs).map (fun p => (p, summaryCount recs p))

/-- Association-list lookup, modelling the key match of
`pd.merge(..., on=['Name', 'Risk'], how='left')`. -/
def alookup {κ ν : Type} [DecidableEq κ] (k : κ) :
    List (κ × ν) → Option ν
  | [] => none
  | (k', v) :: l => if k = k' then some v else alookup k l

/-- One row of `report_df` after the merge and the column reordering:
`[Name, Risk, Total_Count, Host, Per_Host_Count]`.  `totalCount` is an
`Option` because a left join leaves an unmatched row null. -/
structure ReportRow where
  name : String
  risk : String
  totalCount : Option Nat
  host : String
  perHost : Nat
deriving DecidableEq, Repr

/-- The row of `report_df` produced for one `(Name, Risk, Host)` group. -/
def mkRow (recs : List P1Record) (t : String × String × String) :
    ReportRow :=
  { name := t.1
    risk := t.2.1
    totalCount := alookup (t.1, t.2.1) (summaryList recs)
    host := t.2.2
    perHost := detailCount recs t }

/-- The categorical rank of `pd.CategoricalDtype(['Critical', 'High',
'Medium'], ordered=True)`.  Every filtered row has rank `< 3`. -/
def riskRank (s : String) : Nat :=
  if s = "Critical" then 0
  else if s = "High" then 1
  else if s = "Medium" then 2
  else 3

/-- Lexicographic comparison of character lists by code point — the
string order pandas uses to sort the Name column.  (Defined structurally
so that it evaluates by kernel reduction.) -/
def charListLe : List Char → List Char → Bool
  | [], _ => true
  | _ :: _, [] => false
  | a :: as, b :: bs => if a = b then charListLe as bs else decide (a < b)

/-- Lexicographic string comparison by code point. -/
def strLe (s t : String) : Bool :=
  charListLe s.data t.data

/-- The sort order of `report_df.sort_values(by=['Risk', 'Total_Count',
'Name'], ascending=[True, False, True])`: risk rank ascending, then total
count descending, then name ascending.  (`Total_Count` is never null after
the join — see the claim-3 theorem — so the `getD 0` default never
influences the order.) -/
def p1Le (a b : ReportRow) : Prop :=
  riskRank a.risk < riskRank b.risk ∨
    (riskRank a.risk = riskRank b.risk ∧
      (b.totalCount.getD 0 < a.totalCount.getD 0 ∨
        (a.totalCount.getD 0 = b.totalCount.getD 0 ∧
          strLe a.name b.name = true)))

instance : DecidableRel p1Le := fun a b => by
  unfold p1Le; infer_instance

instance : IsTotal ReportRow p1Le := by
  constructor
  have htot : ∀ as bs : List Char,
      charListLe as bs = true ∨ charListLe bs as = true := by
    intro as
    induction as with
    | nil => intro bs; exact Or.inl rfl
    | cons a as ih =>
      intro bs
      cases bs with
      | nil => exact Or.inr rfl
      | cons b bs =>
        by_cases hab : a = b
        · subst hab
          simpa only [charListLe, if_pos rfl] using ih bs
        · have hne : b ≠ a := fun h => hab h.symm
          rcases lt_or_gt_of_ne hab with h | h
          · left; simp [charListLe, hab, h]
          · right; simp [charListLe, hne, h]
  intro a b
  rcases Nat.lt_trichotomy (riskRank a.risk) (riskRank b.risk) with h | h | h
  · exact Or.inl (Or.inl h)
  · rcases Nat.lt_trichotomy (b.totalCount.getD 0) (a.totalCount.getD 0)
      with h2 | h2 | h2
    · exact Or.inl (Or.inr ⟨h, Or.inl h2⟩)
    · rcases htot a.name.data b.name.data with h3 | h3
      · exact Or.inl (Or.inr ⟨h, Or.inr ⟨h2.symm, h3⟩⟩)
      · exact Or.inr (Or.inr ⟨h.symm, Or.inr ⟨h2, h3⟩⟩)
    · exact Or.inr (Or.inr ⟨h.symm, Or.inl h2⟩)
  · exact Or.inr (Or.inl h)

instance : IsTrans ReportRow p1Le := by
  constructor
  intro a b c hab hbc
  rcases hab with h1 | ⟨e1, h1⟩
  · rcases hbc with h2 | ⟨e2, _⟩
    · exact Or.inl (h1.trans h2)
    · exact Or.inl (e2 ▸ h1)
  · rcases hbc with h2 | ⟨e2, h2⟩
    · exact Or.inl (e1 ▸ h2)
    · refine Or.inr ⟨e1.trans e2, ?_⟩
      rcases h1 with h1 | ⟨f1, h1⟩
      · rcases h2 with h2 | ⟨f2, _⟩
        · exact Or.inl (h2.trans h1)
        · exact Or.inl (f2 ▸ h1)
      · rcases h2 with h2 | ⟨f2, h2⟩
        · exact Or.inl (f1 ▸ h2)
        · refine Or.inr ⟨f1.trans f2, ?_⟩
          have htr : ∀ as bs cs : List Char, charListLe as bs = true →
              charListLe bs cs = true → charListLe as cs = true := by
            intro as
            induction as with
            | nil => intro bs cs _ _; rfl
            | cons x as ih =>
              intro bs cs hx1 hx2
              cases bs with
              | nil => simp [charListLe] at hx1
              | cons y bs =>
                cases cs with
                | nil => simp [charListLe] at hx2
                | cons z cs =>
                  by_cases hxy : x = y
                  · subst hxy
                    simp only [charListLe, if_pos rfl] at hx1
                    by_cases hxz : x = z
                    · subst hxz
                      simp only [charListLe, if_pos rfl] at hx2 ⊢
                      exact ih bs cs hx1 hx2
                    · simp only [charListLe, if_neg hxz] at hx2 ⊢
                      exact hx2
                  · simp only [charListLe, if_neg hxy] at hx1
                    have hlt1 : x < y := of_decide_eq_true hx1
                    by_cases hyz : y = z
                    · subst hyz
                      simp only [charListLe, if_neg hxy]
                      exact decide_eq_true hlt1
                    · simp only [charListLe, if_neg hyz] at hx2
                      have hlt2 : y < z := of_decide_eq_true hx2
                      have hlt : x < z := lt_trans hlt1 hlt2
                      have hxz : x ≠ z := ne_of_lt hlt
                      simp only [charListLe, if_neg hxz]
                      exact decide_eq_true hlt
          exact htr a.name.data b.name.data c.name.data h1 h2

/-- The sorted body of `report_df`.  pandas' multi-key `sort_values` is a
stable sort by this total preorder; any stable sort by the same preorder
produces the same list, so insertion sort models it exactly. -/
def p1ReportRows (recs : List P1Record) : List ReportRow :=
  List.insertionSort p1Le ((detailKeys recs).map (mkRow recs))

/-- The fixed output header of pipeline 1. -/
def p1Header : List String :=
  ["Name", "Risk", "Total_Count", "Host", "Per_Host_Count"]

/-- The written CSV: a header and a list of data rows. -/
structure P1Table where
  header : List String
  rows : List ReportRow
deriving DecidableEq, Repr

/-- Pipeline 1 output on the combined record set: the empty-schema table
when nothing passes the risk filter (`filtered_df.empty` branch), else the
merged and sorted report. -/
def p1Process (recs : List P1Record) : P1Table :=
  if p1Filtered recs = [] then ⟨p1Header, []⟩
  else ⟨p1Header, p1ReportRows recs⟩

/-- The state of one input file as the read loop sees it: missing on disk
(skipped with a warning), present but unreadable (`pd.read_csv` raises),
or read successfully into records. -/
inductive FileState where
  | missing : FileState
  | unreadable : FileState
  | ok : List P1Record → FileState
deriving DecidableEq

/-- The read loop of lines 19–29: missing files are skipped, a raising
`pd.read_csv` propagates to the top-level `except` (no later file is
processed), successful reads are appended in order. -/
def readFiles : List FileState → Except String (List (List P1Record))
  | [] => Except.ok []
  | FileState.missing :: fs => readFiles fs
  | FileState.unreadable :: _ => Except.error "read error"
  | FileState.ok recs :: fs =>
    match readFiles fs with
    | Except.ok dfs => Except.ok (recs :: dfs)
    | Except.error e => Except.error e

/-- How a run of pipeline 1 ends: aborted by the top-level `except` (no
output written), `sys.exit(1)` because no file was read, or a written
output table. -/
inductive P1Outcome where
  | aborted : P1Outcome
  | noInput : P1Outcome
  | output : P1Table → P1Outcome
deriving DecidableEq

/-- The whole run of `SummaryVAfromCSV.py` over a batch of input files. -/
def p1Run (files : List FileState) : P1Outcome :=
  match readFiles files with
  | Except.error _ => P1Outcome.aborted
  | Except.ok dfs =>
    if dfs = [] then P1Outcome.noInput
    else P1Outcome.output (p1Process dfs.flatten)

/-- The records of the files that would be read successfully. -/
def okContents (files : List FileState) : List (List P1Record) :=
  files.filterMap (fun f =>
    match f with
    | FileState.ok recs => some recs
    | _ => none)

/-! ## Pipeline 2: `VAcompareNewIssue.py` -/

/-- A normalized fingerprint: the `standardize`d values of
`('Plugin ID', 'Host', 'Protocol', 'Port')`. -/
abbrev Fp := String × String × String × String

/-- One row of the prior-period (`Q3`) concatenated DataFrame, reduced to
the four values `row.get(c)` returns for the match columns (`none` when
the column is absent or the value is `NaN`). -/
structure PriorRecord where
  pluginId : Cell
  host : Cell
  protocol : Cell
  port : Cell
deriving DecidableEq, Repr

/-- `tuple(standardize(row.get(c)) for c in match_cols)` for a prior row. -/
def priorFingerprint (r : PriorRecord) : Fp :=
  (standardize r.pluginId, standardize r.host,
   standardize r.protocol, standardize r.port)

/-- `q3_existing_issues`: fingerprints of all prior rows across all
sheets, skipping rows whose first (Plugin ID) component is the empty
string.  Membership is all that is ever used of this set, so a list with
`∈` models it. -/
def q3FingerprintSet (recs : List PriorRecord) : List Fp :=
  recs.filterMap (fun r =>
    if (priorFingerprint r).1 ≠ "" then some (priorFingerprint r) else none)

/-- Reading cell `j` (0-based) of a row; cells past the end of the stored
row are empty. -/
def getCell (r : Row) (j : Nat) : Cell :=
  (r.get? j).getD none

/-- The 0-based column positions found by
`col_map = {col: headers.index(col) + 1 for col in match_cols + ['Name', 'Risk']}`
(the Python values are these plus one because openpyxl columns are
1-based). -/
structure ColMap where
  pluginId : Nat
  host : Nat
  protocol : Nat
  port : Nat
  name : Nat
  risk : Nat
deriving DecidableEq, Repr

/-- The header names of row 1:
`str(cell.value).strip() if cell.value else f"BlankCol_{i}"`. -/
def headerNames (hdr : List Cell) : List String :=
  hdr.enum.map (fun p =>
    match p.2 with
    | some s => if s = "" then "BlankCol_" ++ toString p.1 else stripStr s
    | none => "BlankCol_" ++ toString p.1)

/-- Builds the column map, or fails (the sheet is skipped) when a required
header is absent — the `except ValueError: continue`. -/
def colMap? (headers : List String) : Option ColMap :=
  match headers.indexOf? "Plugin ID", headers.indexOf? "Host",
      headers.indexOf? "Protocol", headers.indexOf? "Port",
      headers.indexOf? "Name", headers.indexOf? "Risk" with
  | some a, some b, some c, some d, some e, some f =>
    some ⟨a, b, c, d, e, f⟩
  | _, _, _, _, _, _ => none

/-- `tuple(standardize(ws.cell(row=i, column=col_map[c]).value) for c in match_cols)`. -/
def rowFingerprint (cm : ColMap) (r : Row) : Fp :=
  (standardize (getCell r cm.pluginId), standardize (getCell r cm.host),
   standardize (getCell r cm.protocol), standardize (getCell r cm.port))

/-- The in-place deduplication loop of lines 73–85: a row is marked for
deletion when its fingerprint was already seen or its Plugin ID cell is
`None`; otherwise its fingerprint is added to `seen_in_q4`.  Collecting
`rows_to_delete` and then deleting them (in reverse, so indices stay
valid) keeps exactly the unmarked rows in order, which is this filter. -/
def dedupRows (cm : ColMap) : List Fp → List Row → List Row
  | _, [] => []
  | seen, r :: rs =>
    if rowFingerprint cm r ∈ seen ∨ getCell r cm.pluginId = none then
      dedupRows cm seen rs
    else r :: dedupRows cm (rowFingerprint cm r :: seen) rs

/-- `ws.insert_cols(status_col_idx)` restricted to one data row: a new
empty cell appears at 0-based position `i`, later cells shift right.  (For
a stored row shorter than `i` the placement of the empty cell is
immaterial: every affected position reads as an empty cell either way.) -/
def insertCell (i : Nat) (r : Row) : Row :=
  r.take i ++ none :: r.drop i

/-- The classification of lines 98–106 for one surviving row: `true` means
the row is labelled "New Issue".  The key is read through the
pre-insertion `col_map` indices on the row as it stands after
`insert_cols` — the row's own Status cell is still empty when the key is
read, since it is written only later in the same iteration. -/
def classifyRow (cm : ColMap) (prior : List Fp) (r : Row) : Bool :=
  decide (rowFingerprint cm (insertCell (cm.name + 1) r) ∉ prior)

/-- `standardize(ws.cell(row=i, column=col_map['Risk']).value)`, likewise
read through the pre-insertion index on the post-insertion row. -/
def riskOfRow (cm : ColMap) (r : Row) : String :=
  standardize (getCell (insertCell (cm.name + 1) r) cm.risk)

/-- The per-category risk counters of the `counts` dictionary. -/
structure Counts where
  total : Nat
  critical : Nat
  high : Nat
  medium : Nat
  low : Nat
deriving DecidableEq, Repr

def initCounts : Counts := ⟨0, 0, 0, 0, 0⟩

/-- `counts[category]['TOTAL'] += 1` followed by
`if risk_val in counts[category]: counts[category][risk_val] += 1`.
Note a risk value standardizing to `"TOTAL"` is a dictionary key and
bumps the total a second time, exactly as the Python does. -/
def bump (c : Counts) (risk : String) : Counts :=
  let c1 : Counts := { c with total := c.total + 1 }
  if risk = "TOTAL" then { c1 with total := c1.total + 1 }
  else if risk = "CRITICAL" then { c1 with critical := c1.critical + 1 }
  else if risk = "HIGH" then { c1 with high := c1.high + 1 }
  else if risk = "MEDIUM" then { c1 with medium := c1.medium + 1 }
  else if risk = "LOW" then { c1 with low := c1.low + 1 }
  else c1

/-- The `counts` dictionary of one sheet: the "new" and "existing"
buckets. -/
structure SheetCounts where
  new : Counts
  existing : Counts
deriving DecidableEq, Repr

def initSheetCounts : SheetCounts := ⟨initCounts, initCounts⟩

/-- One iteration of the classification loop, folded over the surviving
rows. -/
def accumRow (cm : ColMap) (prior : List Fp) (sc : SheetCounts) (r : Row) :
    SheetCounts :=
  let risk := riskOfRow cm r
  if classifyRow cm prior r then { sc with new := bump sc.new risk }
  else { sc with existing := bump sc.existing risk }

/-- A worksheet: its header row and its data rows (rows 2..max_row). -/
structure Sheet where
  header : List Cell
  rows : List Row
deriving DecidableEq, Repr

/-- Everything pipeline 2 derives from one current-period sheet: `none`
when a required header is missing (the sheet is skipped), otherwise the
per-surviving-row New labels and the accumulated `counts` that enter
`summary_data[sheet_name]`. -/
def processSheet (prior : List Fp) (s : Sheet) :
    Option (List Bool × SheetCounts) :=
  match colMap? (headerNames s.header) with
  | none => none
  | some cm =>
    let survivors := dedupRows cm [] s.rows
    some (survivors.map (classifyRow cm prior),
      survivors.foldl (accumRow cm prior) initSheetCounts)

/-- `summary_data`: the processed sheets of the current workbook, in sheet
order, paired with their counts. -/
def summaryData (prior : List Fp) (wb : List (String × Sheet)) :
    List (String × SheetCounts) :=
  wb.filterMap (fun ns =>
    match processSheet prior ns.2 with
    | none => none
    | some r => some (ns.1, r.2))

/-! ### The RecurrenceSummary tables

The summary area is written with `val or "-"`, i.e. a zero count is
rendered as the dash placeholder.  Rendering is injective on counts
(`0 ↦ "-"`, `n+1 ↦ n+1`), so the tables are modelled by their numeric
content; `dispCell` is the rendering. -/

/-- A written summary cell: a positive number or the `"-"` placeholder. -/
inductive SCell where
  | num : Nat → SCell
  | dash : SCell
deriving DecidableEq, Repr

/-- `val or "-"`. -/
def dispCell (n : Nat) : SCell :=
  if n = 0 then SCell.dash else SCell.num n

/-- The `g_total` accumulator (lines 120 and 138–142). -/
structure GTotal where
  new : Nat
  ext : Nat
  newCritical : Nat
  newHigh : Nat
  newMedium : Nat
  newLow : Nat
  extCritical : Nat
  extHigh : Nat
  extMedium : Nat
  extLow : Nat
deriving DecidableEq, Repr

def gInit : GTotal := ⟨0, 0, 0, 0, 0, 0, 0, 0, 0, 0⟩

/-- One step of the accumulation inside the Table-1 loop. -/
def gStep (g : GTotal) (d : SheetCounts) : GTotal :=
  { new := g.new + d.new.total
    ext := g.ext + d.existing.total
    newCritical := g.newCritical + d.new.critical
    newHigh := g.newHigh + d.new.high
    newMedium := g.newMedium + d.new.medium
    newLow := g.newLow + d.new.low
    extCritical := g.extCritical + d.existing.critical
    extHigh := g.extHigh + d.existing.high
    extMedium := g.extMedium + d.existing.medium
    extLow := g.extLow + d.existing.low }

/-- `g_total` after the Table-1 loop has run over all of `summary_data`. -/
def gTotal (sd : List (String × SheetCounts)) : GTotal :=
  sd.foldl (fun g nd => gStep g nd.2) gInit

/-- A per-domain row of Table A: (domain, New, Existing, Total). -/
def tableARows (sd : List (String × SheetCounts)) :
    List (String × Nat × Nat × Nat) :=
  sd.map (fun nd =>
    (nd.1, nd.2.new.total, nd.2.existing.total,
     nd.2.new.total + nd.2.existing.total))

/-- The grand-total row of Table A: (New, Existing, Total). -/
def tableAGrand (sd : List (String × SheetCounts)) : Nat × Nat × Nat :=
  ((gTotal sd).new, (gTotal sd).ext, (gTotal sd).new + (gTotal sd).ext)

/-- A per-domain row of Table B (New issues):
(domain, Critical, High, Medium, Low, Total). -/
def tableBRows (sd : List (String × SheetCounts)) :
    List (String × Nat × Nat × Nat × Nat × Nat) :=
  sd.map (fun nd =>
    (nd.1, nd.2.new.critical, nd.2.new.high, nd.2.new.medium,
     nd.2.new.low, nd.2.new.total))

/-- The grand-total row of Table B: (Critical, High, Medium, Low, Total). -/
def tableBGrand (sd : List (String × SheetCounts)) :
    Nat × Nat × Nat × Nat × Nat :=
  ((gTotal sd).newCritical, (gTotal sd).newHigh, (gTotal sd).newMedium,
   (gTotal sd).newLow, (gTotal sd).new)

/-- A per-domain row of Table C (Existing issues). -/
def tableCRows (sd : List (String × SheetCounts)) :
    List (String × Nat × Nat × Nat × Nat × Nat) :=
  sd.map (fun nd =>
    (nd.1, nd.2.existing.critical, nd.2.existing.high,
     nd.2.existing.medium, nd.2.existing.low, nd.2.existing.total))

/-- The grand-total row of Table C. -/
def tableCGrand (sd : List (String × SheetCounts)) :
    Nat × Nat × Nat × Nat × Nat :=
  ((gTotal sd).extCritical, (gTotal sd).extHigh, (gTotal sd).extMedium,
   (gTotal sd).extLow, (gTotal sd).ext)


/-- Pointwise sum of two `Counts`. -/
def addCounts (a b : Counts) : Counts :=
  ⟨a.total + b.total, a.critical + b.critical, a.high + b.high,
   a.medium + b.medium, a.low + b.low⟩

/-- Pointwise sum of two `SheetCounts`. -/
def addSheetCounts (a b : SheetCounts) : SheetCounts :=
  ⟨addCounts a.new b.new, addCounts a.existing b.existing⟩

/-- The pointwise sums of the per-domain counts of `summary_data`. -/
def sdSums : List (String × SheetCounts) → SheetCounts
  | [] => initSheetCounts
  | nd :: tl => addSheetCounts nd.2 (sdSums tl)

/-! ## Helper lemmas -/

theorem keepFirstByAux_idem {α κ : Type} [DecidableEq κ] (f : α → κ) :
    ∀ (l : List α) (seen : List κ),
      keepFirstByAux f seen (keepFirstByAux f seen l) =
        keepFirstByAux f seen l := by
  intro l
  induction l with
  | nil => intro seen; rfl
  | cons a l ih =>
    intro seen
    by_cases h : f a ∈ seen
    · simp only [keepFirstByAux, if_pos h]
      exact ih seen
    · simp only [keepFirstByAux, if_pos (List.mem_cons_self (f a) seen),
        if_neg h]
      exact congrArg (a :: ·) (ih (f a :: seen))

theorem mem_of_mem_keepFirstByAux {α κ : Type} [DecidableEq κ] (f : α → κ)
    {x : α} : ∀ {l : List α} {seen : List κ},
    x ∈ keepFirstByAux f seen l → x ∈ l := by
  intro l
  induction l with
  | nil => intro seen h; exact absurd h (List.not_mem_nil x)
  | cons a l ih =>
    intro seen h
    by_cases ha : f a ∈ seen
    · simp only [keepFirstByAux, if_pos ha] at h
      exact List.mem_cons_of_mem a (ih h)
    · simp only [keepFirstByAux, if_neg ha, List.mem_cons] at h
      rcases h with h | h
      · exact h ▸ List.mem_cons_self a l
      · exact List.mem_cons_of_mem a (ih h)

theorem mem_keepFirstByAux_id {α : Type} [DecidableEq α] {x : α} :
    ∀ {l seen : List α},
      x ∈ keepFirstByAux (fun a => a) seen l ↔ x ∈ l ∧ x ∉ seen := by
  intro l
  induction l with
  | nil =>
    intro seen
    simp [keepFirstByAux]
  | cons a l ih =>
    intro seen
    by_cases ha : a ∈ seen
    · simp only [keepFirstByAux, if_pos ha, ih, List.mem_cons]
      constructor
      · rintro ⟨hx, hs⟩; exact ⟨Or.inr hx, hs⟩
      · rintro ⟨hx | hx, hs⟩
        · subst hx; exact absurd ha hs
        · exact ⟨hx, hs⟩
    · simp only [keepFirstByAux, if_neg ha, List.mem_cons, ih]
      constructor
      · rintro (rfl | ⟨hx, hs⟩)
        · exact ⟨Or.inl rfl, ha⟩
        · exact ⟨Or.inr hx, fun hm => hs (Or.inr hm)⟩
      · rintro ⟨rfl | hx, hs⟩
        · exact Or.inl rfl
        · by_cases hxa : x = a
          · exact Or.inl hxa
          · exact Or.inr ⟨hx, fun hm => hm.elim hxa hs⟩

theorem nodup_keepFirstByAux_id {α : Type} [DecidableEq α] :
    ∀ (l seen : List α), (keepFirstByAux (fun a => a) seen l).Nodup := by
  intro l
  induction l with
  | nil => intro seen; exact List.nodup_nil
  | cons a l ih =>
    intro seen
    by_cases ha : a ∈ seen
    · simpa [keepFirstByAux, if_pos ha] using ih seen
    · simp only [keepFirstByAux, if_neg ha]
      refine List.Nodup.cons ?_ (ih (a :: seen))
      intro hmem
      exact ((mem_keepFirstByAux_id.mp hmem).2) (List.mem_cons_self a seen)


/-- Marking rows whose fingerprint was seen or whose Plugin ID cell is
`None` and deleting the marked rows is the same as first discarding the
`None`-Plugin-ID rows and then keeping the first occurrence of each
fingerprint: a `None`-row is never added to `seen_in_q4`, so it influences
nothing downstream. -/
theorem dedupRows_eq_keepFirstByAux (cm : ColMap) :
    ∀ (rows : List Row) (seen : List Fp),
      dedupRows cm seen rows =
        keepFirstByAux (rowFingerprint cm) seen
          (rows.filter (fun r => (getCell r cm.pluginId).isSome)) := by
  intro rows
  induction rows with
  | nil => intro seen; rfl
  | cons r rs ih =>
    intro seen
    by_cases hp : getCell r cm.pluginId = none
    · have hfilter : (r :: rs).filter
          (fun r => (getCell r cm.pluginId).isSome) =
          rs.filter (fun r => (getCell r cm.pluginId).isSome) := by
        simp [List.filter_cons, hp]
      rw [hfilter, ← ih seen]
      simp [dedupRows, hp]
    · have hfilter : (r :: rs).filter
          (fun r => (getCell r cm.pluginId).isSome) =
          r :: rs.filter (fun r => (getCell r cm.pluginId).isSome) := by
        simp [List.filter_cons, Option.isSome_iff_ne_none, hp]
      rw [hfilter]
      by_cases hs : rowFingerprint cm r ∈ seen
      · simp only [dedupRows, keepFirstByAux, if_pos (Or.inl hs), if_pos hs]
        exact ih seen
      · have hcond : ¬(rowFingerprint cm r ∈ seen ∨
            getCell r cm.pluginId = none) := by
          rintro (h | h)
          · exact hs h
          · exact hp h
        simp only [dedupRows, keepFirstByAux, if_neg hcond, if_neg hs]
        exact congrArg (r :: ·) (ih (rowFingerprint cm r :: seen))

/-- Reading cell `c` after `insert_cols` at position `i`: positions left of
the insertion are unchanged, position `i` is the fresh empty cell, and any
later position reads the cell that used to sit one column to its left. -/
theorem getCell_insertCell :
    ∀ (r : Row) (i j : Nat),
      getCell (insertCell i r) j =
        if j < i then getCell r j
        else if j = i then none
        else getCell r (j - 1) := by
  intro r
  induction r with
  | nil =>
    intro i j
    have h1 : insertCell i [] = [none] := by simp [insertCell]
    have h2 : getCell [none] j = none := by cases j <;> rfl
    have h3 : ∀ k, getCell ([] : Row) k = none := by
      intro k; cases k <;> rfl
    rw [h1, h2]
    split
    · exact (h3 j).symm
    · split
      · rfl
      · exact (h3 (j - 1)).symm
  | cons a r ih =>
    intro i j
    cases i with
    | zero =>
      cases j with
      | zero => rfl
      | succ j =>
        have : insertCell 0 (a :: r) = none :: a :: r := by
          simp [insertCell]
        rw [this]
        simp only [Nat.not_lt_zero, if_neg (Nat.succ_ne_zero j),
          if_false, Nat.succ_sub_one]
        rfl
    | succ i =>
      cases j with
      | zero =>
        have : insertCell (i + 1) (a :: r) = a :: insertCell i r := by
          simp [insertCell]
        rw [this, if_pos (Nat.succ_pos i)]
        rfl
      | succ j =>
        have h1 : insertCell (i + 1) (a :: r) = a :: insertCell i r := by
          simp [insertCell]
        have h2 : getCell (a :: insertCell i r) (j + 1) =
            getCell (insertCell i r) j := rfl
        rw [h1, h2, ih i j]
        by_cases hlt : j < i
        · rw [if_pos hlt, if_pos (by omega : j + 1 < i + 1)]
          rfl
        · rw [if_neg hlt, if_neg (by omega : ¬(j + 1 < i + 1))]
          by_cases heq : j = i
          · rw [if_pos heq, if_pos (by omega : j + 1 = i + 1)]
          · rw [if_neg heq, if_neg (by omega : ¬(j + 1 = i + 1))]
            obtain ⟨k, rfl⟩ : ∃ k, j = k + 1 := ⟨j - 1, by omega⟩
            rfl

/-- Looking up a key in an association list built from a key list by
pairing each key with a computed value. -/
theorem alookup_map_self {κ ν : Type} [DecidableEq κ] (g : κ → ν) :
    ∀ (ks : List κ) (k : κ), k ∈ ks →
      alookup k (ks.map (fun p => (p, g p))) = some (g k) := by
  intro ks
  induction ks with
  | nil => intro k h; exact absurd h (List.not_mem_nil k)
  | cons a ks ih =>
    intro k h
    by_cases hk : k = a
    · subst hk; simp [alookup]
    · rcases List.mem_cons.mp h with h1 | h1
      · exact absurd h1 hk
      · simp only [List.map_cons, alookup, if_neg hk]
        exact ih k h1

/-- Splitting a count along a second predicate. -/
theorem countP_split {α : Type} (p q : α → Bool) :
    ∀ l : List α,
      l.countP p = l.countP (fun a => p a && q a) +
        l.countP (fun a => p a && !(q a)) := by
  intro l
  induction l with
  | nil => rfl
  | cons a l ih =>
    by_cases hp : p a
    · by_cases hq : q a
      · simp [List.countP_cons, hp, hq, ih]; omega
      · simp [List.countP_cons, hp, hq, ih]; omega
    · simp [List.countP_cons, hp, ih]

/-- The partition law behind the `Total_Count` invariant: summing the
multiplicities (in `T`) of the distinct values listed in `D` that satisfy
`q` gives the number of elements of `T` satisfying `q`, provided `D` has
no duplicates and covers every element of `T`. -/
theorem sum_countP_partition {α : Type} [DecidableEq α] :
    ∀ (D : List α), D.Nodup → ∀ (T : List α) (q : α → Bool),
      (∀ x, x ∈ T → x ∈ D) →
      ((D.filter q).map
          (fun t => T.countP (fun x => decide (x = t)))).sum =
        T.countP q := by
  intro D
  induction D with
  | nil =>
    intro _ T q hsub
    simp only [List.filter_nil, List.map_nil, List.sum_nil]
    symm
    rw [List.countP_eq_zero]
    intro a ha
    exact absurd (hsub a ha) (List.not_mem_nil a)
  | cons t D ih =>
    intro hnd T q hsub
    have ht : t ∉ D := (List.nodup_cons.mp hnd).1
    have hD : D.Nodup := (List.nodup_cons.mp hnd).2
    have hsub' : ∀ x, x ∈ T.filter (fun x => !(decide (x = t))) → x ∈ D := by
      intro x hx
      rcases List.mem_filter.mp hx with ⟨hxT, hxt⟩
      have hne : x ≠ t := by simpa using hxt
      rcases List.mem_cons.mp (hsub x hxT) with h | h
      · exact absurd h hne
      · exact h
    have hswap : ∀ s ∈ D.filter q,
        T.countP (fun x => decide (x = s)) =
          (T.filter (fun x => !(decide (x = t)))).countP
            (fun x => decide (x = s)) := by
      intro s hsD
      have hsne : s ≠ t := by
        intro hst
        exact ht (hst ▸ (List.mem_filter.mp hsD).1)
      rw [List.countP_filter]
      refine (List.countP_congr ?_).symm
      intro x _
      by_cases hx : x = s
      · subst hx
        simp [hsne]
      · simp [hx]
    have hrest :
        ((D.filter q).map
            (fun t' => T.countP (fun x => decide (x = t')))).sum =
          (T.filter (fun x => !(decide (x = t)))).countP q := by
      rw [List.map_congr_left hswap]
      exact ih hD (T.filter (fun x => !(decide (x = t)))) q hsub'
    have hsplit := countP_split q (fun x => decide (x = t)) T
    have hsecond : T.countP (fun x => q x && !(decide (x = t))) =
        (T.filter (fun x => !(decide (x = t)))).countP q := by
      rw [List.countP_filter]
    by_cases hq : q t
    · have hfilter : (t :: D).filter q = t :: D.filter q := by
        simp [List.filter_cons, hq]
      have hfirst : T.countP (fun x => q x && decide (x = t)) =
          T.countP (fun x => decide (x = t)) := by
        refine List.countP_congr ?_
        intro x _
        by_cases hx : x = t
        · subst hx; simp [hq]
        · simp [hx]
      rw [hfilter, List.map_cons, List.sum_cons, hrest, hsplit,
        hfirst, hsecond]
    · have hfilter : (t :: D).filter q = D.filter q := by
        simp [List.filter_cons, hq]
      have hfirst : T.countP (fun x => q x && decide (x = t)) = 0 := by
        rw [List.countP_eq_zero]
        intro a _
        by_cases hx : a = t
        · subst hx; simp [hq]
        · simp [hx]
      rw [hfilter, hrest, hsplit, hfirst, hsecond]
      omega

/-- Summing a pointwise sum of two maps. -/
theorem sum_map_add {α : Type} (f g : α → Nat) :
    ∀ l : List α,
      (l.map (fun a => f a + g a)).sum = (l.map f).sum + (l.map g).sum := by
  intro l
  induction l with
  | nil => rfl
  | cons a l ih =>
    simp only [List.map_cons, List.sum_cons, ih]
    omega

/-- Each field of `sdSums` is the per-domain column sum. -/
theorem sdSums_fields (sd : List (String × SheetCounts)) :
    (sdSums sd).new.total = (sd.map (fun nd => nd.2.new.total)).sum ∧
    (sdSums sd).new.critical = (sd.map (fun nd => nd.2.new.critical)).sum ∧
    (sdSums sd).new.high = (sd.map (fun nd => nd.2.new.high)).sum ∧
    (sdSums sd).new.medium = (sd.map (fun nd => nd.2.new.medium)).sum ∧
    (sdSums sd).new.low = (sd.map (fun nd => nd.2.new.low)).sum ∧
    (sdSums sd).existing.total =
      (sd.map (fun nd => nd.2.existing.total)).sum ∧
    (sdSums sd).existing.critical =
      (sd.map (fun nd => nd.2.existing.critical)).sum ∧
    (sdSums sd).existing.high =
      (sd.map (fun nd => nd.2.existing.high)).sum ∧
    (sdSums sd).existing.medium =
      (sd.map (fun nd => nd.2.existing.medium)).sum ∧
    (sdSums sd).existing.low =
      (sd.map (fun nd => nd.2.existing.low)).sum := by
  induction sd with
  | nil => simp [sdSums, initSheetCounts, initCounts]
  | cons nd tl ih =>
    obtain ⟨h1, h2, h3, h4, h5, h6, h7, h8, h9, h10⟩ := ih
    simp only [sdSums, addSheetCounts, addCounts, List.map_cons,
      List.sum_cons]
    exact ⟨by rw [h1], by rw [h2], by rw [h3], by rw [h4], by rw [h5],
      by rw [h6], by rw [h7], by rw [h8], by rw [h9], by rw [h10]⟩

/-- The `g_total` fold accumulates exactly the pointwise sums. -/
theorem foldl_gStep_eq :
    ∀ (sd : List (String × SheetCounts)) (g : GTotal),
      sd.foldl (fun g nd => gStep g nd.2) g = gStep g (sdSums sd) := by
  intro sd
  induction sd with
  | nil =>
    intro g
    cases g
    simp [sdSums, gStep, initSheetCounts, initCounts]
  | cons nd tl ih =>
    intro g
    simp only [List.foldl_cons]
    rw [ih (gStep g nd.2)]
    simp only [sdSums, gStep, addSheetCounts, addCounts, GTotal.mk.injEq]
    omega

/-- `readFiles` succeeds, returning exactly the readable files' contents,
whenever the batch holds no unreadable file. -/
theorem readFiles_ok_of_no_unreadable :
    ∀ files : List FileState, FileState.unreadable ∉ files →
      readFiles files = Except.ok (okContents files) := by
  intro files
  induction files with
  | nil => intro _; rfl
  | cons f fs ih =>
    intro h
    have hfs : FileState.unreadable ∉ fs :=
      fun hm => h (List.mem_cons_of_mem f hm)
    cases f with
    | missing =>
      simp only [readFiles, okContents, List.filterMap_cons]
      exact ih hfs
    | unreadable => exact absurd (List.mem_cons_self _ fs) h
    | ok recs =>
      simp only [readFiles, okContents, List.filterMap_cons, ih hfs]

/-! ## Claims -/

/-- Claim C9: the deduplication of both pipelines — keep the first row (in
input order) of each distinct fingerprint, drop the rest — is idempotent:
running it on its own output changes nothing. -/
theorem c9_dedup_idempotent :
    (∀ recs : List P1Record, p1Dedup (p1Dedup recs) = p1Dedup recs) ∧
    (∀ (cm : ColMap) (rows : List Row),
      dedupRows cm [] (dedupRows cm [] rows) = dedupRows cm [] rows) := by
  constructor
  · intro recs
    unfold p1Dedup keepFirstBy
    exact keepFirstByAux_idem p1Fingerprint recs []
  · intro cm rows
    rw [dedupRows_eq_keepFirstByAux cm rows []]
    rw [dedupRows_eq_keepFirstByAux cm
      (keepFirstByAux (rowFingerprint cm) []
        (rows.filter (fun r => (getCell r cm.pluginId).isSome))) []]
    have hK : (keepFirstByAux (rowFingerprint cm) []
          (rows.filter (fun r => (getCell r cm.pluginId).isSome))).filter
            (fun r => (getCell r cm.pluginId).isSome) =
        keepFirstByAux (rowFingerprint cm) []
          (rows.filter (fun r => (getCell r cm.pluginId).isSome)) := by
      refine List.filter_eq_self.mpr ?_
      intro a ha
      exact (List.mem_filter.mp
        (mem_of_mem_keepFirstByAux (rowFingerprint cm) ha)).2
    rw [hK]
    exact keepFirstByAux_idem (rowFingerprint cm) _ []

/-- Claim C7: when every deduplicated record fails the risk allow-list
filter, pipeline 1 still terminates successfully with a header-only table
whose schema is exactly [Name, Risk, Total_Count, Host, Per_Host_Count]. -/
theorem c7_all_filtered_header_only (files : List FileState)
    (dfs : List (List P1Record)) (hread : readFiles files = Except.ok dfs)
    (hne : dfs ≠ []) (hempty : p1Filtered dfs.flatten = []) :
    p1Run files = P1Outcome.output
      ⟨["Name", "Risk", "Total_Count", "Host", "Per_Host_Count"], []⟩ := by
  have hrun : p1Run files =
      if dfs = [] then P1Outcome.noInput
      else P1Outcome.output (p1Process dfs.flatten) := by
    unfold p1Run
    rw [hread]
  rw [hrun, if_neg hne]
  unfold p1Process
  rw [if_pos hempty]
  rfl

/-- Witness for C7: a single readable file whose only record is Low-risk
yields the successful empty output. -/
theorem c7_all_filtered_header_only_witness :
    p1Run [FileState.ok [⟨"A", "Low", "H", "80"⟩]] = P1Outcome.output
      ⟨["Name", "Risk", "Total_Count", "Host", "Per_Host_Count"], []⟩ :=
  c7_all_filtered_header_only [FileState.ok [⟨"A", "Low", "H", "80"⟩]]
    [[⟨"A", "Low", "H", "80"⟩]] rfl (by decide) (by decide)

/-- Claim C8 counterexample: the first file reads fine, the second exists
but `pd.read_csv` raises on it; the exception reaches the top-level
handler and the whole run is aborted with no output, instead of the file
being skipped. -/
theorem c8_counterexample :
    p1Run [FileState.ok [⟨"A", "Critical", "H", "80"⟩],
      FileState.unreadable] = P1Outcome.aborted := by decide

/-- Claim C8 as amended: files missing on disk are skipped without
aborting; when the batch holds no existing-but-unreadable file and at
least one file is read, the output is produced from the successfully read
files.  (An unreadable existing file aborts the whole run — see the
counterexample.) -/
theorem c8_amended_missing_skipped (files : List FileState)
    (hnu : FileState.unreadable ∉ files) (hok : okContents files ≠ []) :
    p1Run files =
      P1Outcome.output (p1Process (okContents files).flatten) := by
  have hrun : p1Run files =
      if okContents files = [] then P1Outcome.noInput
      else P1Outcome.output (p1Process (okContents files).flatten) := by
    unfold p1Run
    rw [readFiles_ok_of_no_unreadable files hnu]
  rw [hrun, if_neg hok]

/-- Witness for the amended C8: a missing file followed by a readable one
still produces the output of the readable file's records. -/
theorem c8_amended_missing_skipped_witness :
    p1Run [FileState.missing, FileState.ok [⟨"A", "Critical", "H", "80"⟩]]
      = P1Outcome.output (p1Process [⟨"A", "Critical", "H", "80"⟩]) :=
  c8_amended_missing_skipped
    [FileState.missing, FileState.ok [⟨"A", "Critical", "H", "80"⟩]]
    (by decide) (by decide)

/-- Claim C1 counterexample: two records whose Host values differ only in
surrounding whitespace and letter case (they standardize identically) are
both kept by pipeline 1's deduplication — its `drop_duplicates` compares
the raw `(Name, Host, Port)` values, so the two findings are not treated
as the same issue there. -/
theorem c1_counterexample :
    standardize (some " Server1 ") = standardize (some "SERVER1") ∧
    p1Dedup [⟨"N", "High", " Server1 ", "80"⟩,
        ⟨"N", "High", "SERVER1", "80"⟩] =
      [⟨"N", "High", " Server1 ", "80"⟩, ⟨"N", "High", "SERVER1", "80"⟩] :=
  ⟨by decide, by decide⟩

/-- Claim C1 as amended: in pipeline 2, whose fingerprints are built with
`standardize`, two rows with equal normalized fingerprints (in particular
rows differing only in whitespace/case on the fingerprint cells) are
deduplicated together, and the prior-period membership test cannot tell
them apart; pipeline 1's dedup compares raw values and keeps both (see
the counterexample). -/
theorem c1_amended_p2_normalized (cm : ColMap) (prior : List Fp)
    (r1 r2 : Row)
    (hfp : rowFingerprint cm r1 = rowFingerprint cm r2)
    (hp : getCell r1 cm.pluginId ≠ none) :
    dedupRows cm [] [r1, r2] = [r1] ∧
      (rowFingerprint cm r1 ∈ prior ↔ rowFingerprint cm r2 ∈ prior) := by
  constructor
  · have h1 : ¬(rowFingerprint cm r1 ∈ ([] : List Fp) ∨
        getCell r1 cm.pluginId = none) := by
      rintro (h | h)
      · exact absurd h (List.not_mem_nil _)
      · exact hp h
    have h2 : rowFingerprint cm r2 ∈ [rowFingerprint cm r1] ∨
        getCell r2 cm.pluginId = none := by
      refine Or.inl ?_
      rw [← hfp]
      exact List.mem_singleton_self _
    simp only [dedupRows, if_neg h1, if_pos h2]
  · rw [hfp]

/-- Witness for the amended C1: the second row repeats the first's
fingerprint with different whitespace/case and is dropped. -/
theorem c1_amended_p2_normalized_witness :
    dedupRows ⟨0, 1, 2, 3, 4, 5⟩ []
      [[some "P1", some " Server1 ", some "TCP", some "80", some "V",
          some "High"],
       [some " P1", some "SERVER1", some "tcp", some "80 ", some "V2",
          some "High"]] =
      [[some "P1", some " Server1 ", some "TCP", some "80", some "V",
          some "High"]] ∧
    (rowFingerprint ⟨0, 1, 2, 3, 4, 5⟩
        [some "P1", some " Server1 ", some "TCP", some "80", some "V",
          some "High"] ∈ [(("P1", "SERVER1", "TCP", "80") : Fp)] ↔
      rowFingerprint ⟨0, 1, 2, 3, 4, 5⟩
        [some " P1", some "SERVER1", some "tcp", some "80 ", some "V2",
          some "High"] ∈ [(("P1", "SERVER1", "TCP", "80") : Fp)]) :=
  c1_amended_p2_normalized ⟨0, 1, 2, 3, 4, 5⟩
    [("P1", "SERVER1", "TCP", "80")]
    [some "P1", some " Server1 ", some "TCP", some "80", some "V",
      some "High"]
    [some " P1", some "SERVER1", some "tcp", some "80 ", some "V2",
      some "High"]
    (by decide) (by decide)

/-- Claim C6 counterexample: a sheet whose first row has a `None` Plugin
ID cell and whose second row has a whitespace-only Plugin ID cell.  The
two rows have the same normalized fingerprint and the second's normalized
primary component is empty, yet the second row survives — it is neither
dropped for an empty primary component nor is it the first row of its
fingerprint. -/
theorem c6_counterexample :
    dedupRows ⟨0, 1, 2, 3, 4, 5⟩ []
      [[none, some "H", some "TCP", some "80", some "V", some "High"],
       [some " ", some "H", some "TCP", some "80", some "V", some "High"]]
      = [[some " ", some "H", some "TCP", some "80", some "V",
          some "High"]] ∧
    standardize (getCell
      [some " ", some "H", some "TCP", some "80", some "V", some "High"]
      (0 : Nat)) = "" ∧
    rowFingerprint ⟨0, 1, 2, 3, 4, 5⟩
        [none, some "H", some "TCP", some "80", some "V", some "High"] =
      rowFingerprint ⟨0, 1, 2, 3, 4, 5⟩
        [some " ", some "H", some "TCP", some "80", some "V",
          some "High"] :=
  ⟨by decide, by decide, by decide⟩

/-- Claim C6 as amended: the surviving rows of pipeline 2's per-sheet
deduplication are exactly the first occurrence of each distinct normalized
fingerprint among the rows whose Plugin ID cell is present; every row
whose Plugin ID cell is literally missing (`None`) is dropped.  (A
present-but-blank Plugin ID cell is not dropped — see the
counterexample.) -/
theorem c6_amended_dedup_first_occurrences (cm : ColMap)
    (rows : List Row) :
    dedupRows cm [] rows =
      keepFirstBy (rowFingerprint cm)
        (rows.filter (fun r => (getCell r cm.pluginId).isSome)) ∧
    ∀ r ∈ dedupRows cm [] rows, getCell r cm.pluginId ≠ none := by
  constructor
  · exact dedupRows_eq_keepFirstByAux cm rows []
  · intro r hr
    rw [dedupRows_eq_keepFirstByAux cm rows []] at hr
    have hmem := mem_of_mem_keepFirstByAux (rowFingerprint cm) hr
    have := (List.mem_filter.mp hmem).2
    simpa [Option.isSome_iff_ne_none] using this

/-- Witness for the amended C6 at a concrete sheet. -/
theorem c6_amended_dedup_first_occurrences_witness :
    dedupRows ⟨0, 1, 2, 3, 4, 5⟩ []
      [[none, some "H", some "TCP", some "80", some "V", some "High"],
       [some "P", some "H", some "TCP", some "80", some "V", some "High"]]
      = keepFirstBy (rowFingerprint ⟨0, 1, 2, 3, 4, 5⟩)
        ([[none, some "H", some "TCP", some "80", some "V", some "High"],
          [some "P", some "H", some "TCP", some "80", some "V",
            some "High"]].filter
          (fun r => (getCell r (⟨0, 1, 2, 3, 4, 5⟩ : ColMap).pluginId).isSome)) ∧
    getCell [some "P", some "H", some "TCP", some "80", some "V",
        some "High"] (⟨0, 1, 2, 3, 4, 5⟩ : ColMap).pluginId ≠ none :=
  ⟨(c6_amended_dedup_first_occurrences ⟨0, 1, 2, 3, 4, 5⟩
      [[none, some "H", some "TCP", some "80", some "V", some "High"],
       [some "P", some "H", some "TCP", some "80", some "V",
          some "High"]]).1,
   (c6_amended_dedup_first_occurrences ⟨0, 1, 2, 3, 4, 5⟩
      [[none, some "H", some "TCP", some "80", some "V", some "High"],
       [some "P", some "H", some "TCP", some "80", some "V",
          some "High"]]).2
     [some "P", some "H", some "TCP", some "80", some "V", some "High"]
     (by decide)⟩

/-- Claim C10: classification and risk bucketing read their cells at the
column indices computed from the pre-insertion header even after the
Status column is inserted at `Name + 1`.  When every one of Plugin ID,
Host, Protocol, Port and Risk sits to the left of Name, those reads still
hit the intended columns, so the label is decided by the row's real
fingerprint and the risk by the real Risk cell; any of those columns
sitting to the right of Name is instead read from a shifted position —
the freshly inserted (empty) Status column at `Name + 1`, or the cell one
column to the left of the intended one. -/
theorem c10_preinsertion_indices (cm : ColMap) (prior : List Fp)
    (r : Row) :
    (cm.pluginId < cm.name ∧ cm.host < cm.name ∧ cm.protocol < cm.name ∧
        cm.port < cm.name ∧ cm.risk < cm.name →
      classifyRow cm prior r = decide (rowFingerprint cm r ∉ prior) ∧
        riskOfRow cm r = standardize (getCell r cm.risk)) ∧
    (∀ c, cm.name < c →
      getCell (insertCell (cm.name + 1) r) c =
        if c = cm.name + 1 then none else getCell r (c - 1)) := by
  constructor
  · rintro ⟨h1, h2, h3, h4, h5⟩
    have hfp : rowFingerprint cm (insertCell (cm.name + 1) r) =
        rowFingerprint cm r := by
      unfold rowFingerprint
      simp only [getCell_insertCell]
      rw [if_pos (show cm.pluginId < cm.name + 1 by omega),
          if_pos (show cm.host < cm.name + 1 by omega),
          if_pos (show cm.protocol < cm.name + 1 by omega),
          if_pos (show cm.port < cm.name + 1 by omega)]
    constructor
    · unfold classifyRow
      rw [hfp]
    · unfold riskOfRow
      rw [getCell_insertCell, if_pos (show cm.risk < cm.name + 1 by omega)]
  · intro c hc
    rw [getCell_insertCell, if_neg (show ¬c < cm.name + 1 by omega)]

/-- Witness for C10: with header order [Plugin ID, Host, Protocol, Port,
Risk, Name] all reads are intact, and reading a column right of Name after
the insertion yields the cell one column to its left. -/
theorem c10_preinsertion_indices_witness :
    (classifyRow ⟨0, 1, 2, 3, 5, 4⟩ [("P1", "H1", "TCP", "80")]
        [some "P1", some "H1", some "TCP", some "80", some "High",
          some "V", some "extra"] =
      decide (rowFingerprint ⟨0, 1, 2, 3, 5, 4⟩
        [some "P1", some "H1", some "TCP", some "80", some "High",
          some "V", some "extra"] ∉ [(("P1", "H1", "TCP", "80") : Fp)]) ∧
      riskOfRow ⟨0, 1, 2, 3, 5, 4⟩
        [some "P1", some "H1", some "TCP", some "80", some "High",
          some "V", some "extra"] =
        standardize (getCell
          [some "P1", some "H1", some "TCP", some "80", some "High",
            some "V", some "extra"] (⟨0, 1, 2, 3, 5, 4⟩ : ColMap).risk)) ∧
    getCell (insertCell ((⟨0, 1, 2, 3, 5, 4⟩ : ColMap).name + 1)
        [some "P1", some "H1", some "TCP", some "80", some "High",
          some "V", some "extra"]) 7 =
      getCell [some "P1", some "H1", some "TCP", some "80", some "High",
          some "V", some "extra"] 6 := by
  have h := c10_preinsertion_indices ⟨0, 1, 2, 3, 5, 4⟩
    [("P1", "H1", "TCP", "80")]
    [some "P1", some "H1", some "TCP", some "80", some "High",
      some "V", some "extra"]
  refine ⟨h.1 (by decide), ?_⟩
  have h2 := h.2 7 (by decide)
  simpa using h2

/-- Claim C2 counterexample: the sheet's header puts Name first, so the
Status column is inserted at position 1 and every fingerprint cell is
read one column short of its real place.  The single surviving row's
normalized fingerprint ("P1","H1","TCP","80") is in the prior-period set,
yet the row is labelled New (`true`). -/
theorem c2_counterexample :
    colMap? (headerNames [some "Name", some "Plugin ID", some "Host",
        some "Protocol", some "Port", some "Risk"]) =
      some ⟨1, 2, 3, 4, 0, 5⟩ ∧
    rowFingerprint ⟨1, 2, 3, 4, 0, 5⟩
        [some "Vuln", some "P1", some "H1", some "TCP", some "80",
          some "High"] ∈
      q3FingerprintSet
        [⟨some "P1", some "H1", some "TCP", some "80"⟩] ∧
    processSheet
        (q3FingerprintSet
          [⟨some "P1", some "H1", some "TCP", some "80"⟩])
        ⟨[some "Name", some "Plugin ID", some "Host", some "Protocol",
            some "Port", some "Risk"],
          [[some "Vuln", some "P1", some "H1", some "TCP", some "80",
            some "High"]]⟩ =
      some ([true], ⟨⟨1, 0, 0, 0, 0⟩, ⟨0, 0, 0, 0, 0⟩⟩) :=
  ⟨by decide, by decide, by decide⟩

/-- Claim C2 as amended: provided every fingerprint column (Plugin ID,
Host, Protocol, Port) sits strictly left of the Name column — so the
pre-insertion indices still reach the intended cells after the Status
column is inserted — a surviving row is labelled New exactly when its
normalized fingerprint is absent from the prior-period set; and that set
is built from all prior-period records across all domains, skipping
exactly the records whose normalized primary component is empty. -/
theorem c2_amended_new_iff_absent (priorRecs : List PriorRecord)
    (cm : ColMap) (r : Row)
    (h1 : cm.pluginId < cm.name) (h2 : cm.host < cm.name)
    (h3 : cm.protocol < cm.name) (h4 : cm.port < cm.name) :
    (classifyRow cm (q3FingerprintSet priorRecs) r = true ↔
      rowFingerprint cm r ∉ q3FingerprintSet priorRecs) ∧
    (∀ f : Fp, f ∈ q3FingerprintSet priorRecs ↔
      ∃ rec ∈ priorRecs, priorFingerprint rec = f ∧ f.1 ≠ "") := by
  constructor
  · unfold classifyRow
    rw [decide_eq_true_iff]
    have hfp : rowFingerprint cm (insertCell (cm.name + 1) r) =
        rowFingerprint cm r := by
      unfold rowFingerprint
      simp only [getCell_insertCell]
      rw [if_pos (show cm.pluginId < cm.name + 1 by omega),
          if_pos (show cm.host < cm.name + 1 by omega),
          if_pos (show cm.protocol < cm.name + 1 by omega),
          if_pos (show cm.port < cm.name + 1 by omega)]
    rw [hfp]
  · intro f
    unfold q3FingerprintSet
    rw [List.mem_filterMap]
    constructor
    · rintro ⟨rec, hrec, hf⟩
      by_cases hne : (priorFingerprint rec).1 ≠ ""
      · rw [if_pos hne] at hf
        injection hf with hf
        subst hf
        exact ⟨rec, hrec, rfl, hne⟩
      · rw [if_neg hne] at hf
        exact absurd hf (by simp)
    · rintro ⟨rec, hrec, hfeq, hne⟩
      subst hfeq
      exact ⟨rec, hrec, by rw [if_pos hne]⟩

/-- Witness for the amended C2: header order [Plugin ID, Host, Protocol,
Port, Risk, Name]; the row's fingerprint is in the prior set and it is
labelled Existing (`classifyRow` is `false`, so the `= true` side and the
absence side are both false, and the equivalence is checkable). -/
theorem c2_amended_new_iff_absent_witness :
    classifyRow ⟨0, 1, 2, 3, 5, 4⟩
        (q3FingerprintSet
          [⟨some "P1", some "H1", some "TCP", some "80"⟩])
        [some "P1", some "H1", some "TCP", some "80", some "High",
          some "V"] = true ↔
      rowFingerprint ⟨0, 1, 2, 3, 5, 4⟩
        [some "P1", some "H1", some "TCP", some "80", some "High",
          some "V"] ∉
        q3FingerprintSet
          [⟨some "P1", some "H1", some "TCP", some "80"⟩] :=
  (c2_amended_new_iff_absent
    [⟨some "P1", some "H1", some "TCP", some "80"⟩] ⟨0, 1, 2, 3, 5, 4⟩
    [some "P1", some "H1", some "TCP", some "80", some "High", some "V"]
    (by decide) (by decide) (by decide) (by decide)).1

/-- Claim C4: for every input, the rows of the pipeline-1 output are
pairwise ordered by risk under the custom precedence
[Critical, High, Medium] ascending, then Total_Count descending, then
Name ascending — so any two output rows compare in this order, and rows
differing in none of the three keys are indistinguishable to it. -/
theorem c4_output_sorted (recs : List P1Record) :
    List.Sorted p1Le (p1Process recs).rows := by
  unfold p1Process
  split
  · exact List.sorted_nil
  · exact List.sorted_insertionSort p1Le ((detailKeys recs).map (mkRow recs))

/-- Claim C5: in the RecurrenceSummary, every grand-total cell is the
exact sum of the contributing per-domain values of its column — for
Table A (New, Existing, Total), Table B (per-risk and Total over New) and
Table C (per-risk and Total over Existing) — and in particular Table A's
grand-total New equals the sum of Table B's per-domain Total column, and
Table A's grand-total Existing equals the sum of Table C's per-domain
Total column. -/
theorem c5_grand_total_consistency (sd : List (String × SheetCounts)) :
    (tableAGrand sd).1 = ((tableARows sd).map (fun r => r.2.1)).sum ∧
    (tableAGrand sd).2.1 = ((tableARows sd).map (fun r => r.2.2.1)).sum ∧
    (tableAGrand sd).2.2 = ((tableARows sd).map (fun r => r.2.2.2)).sum ∧
    (tableBGrand sd).1 = ((tableBRows sd).map (fun r => r.2.1)).sum ∧
    (tableBGrand sd).2.1 = ((tableBRows sd).map (fun r => r.2.2.1)).sum ∧
    (tableBGrand sd).2.2.1 =
      ((tableBRows sd).map (fun r => r.2.2.2.1)).sum ∧
    (tableBGrand sd).2.2.2.1 =
      ((tableBRows sd).map (fun r => r.2.2.2.2.1)).sum ∧
    (tableBGrand sd).2.2.2.2 =
      ((tableBRows sd).map (fun r => r.2.2.2.2.2)).sum ∧
    (tableCGrand sd).1 = ((tableCRows sd).map (fun r => r.2.1)).sum ∧
    (tableCGrand sd).2.1 = ((tableCRows sd).map (fun r => r.2.2.1)).sum ∧
    (tableCGrand sd).2.2.1 =
      ((tableCRows sd).map (fun r => r.2.2.2.1)).sum ∧
    (tableCGrand sd).2.2.2.1 =
      ((tableCRows sd).map (fun r => r.2.2.2.2.1)).sum ∧
    (tableCGrand sd).2.2.2.2 =
      ((tableCRows sd).map (fun r => r.2.2.2.2.2)).sum ∧
    (tableAGrand sd).1 = ((tableBRows sd).map (fun r => r.2.2.2.2.2)).sum ∧
    (tableAGrand sd).2.1 =
      ((tableCRows sd).map (fun r => r.2.2.2.2.2)).sum := by
  obtain ⟨h1, h2, h3, h4, h5, h6, h7, h8, h9, h10⟩ := sdSums_fields sd
  have hg : gTotal sd = gStep gInit (sdSums sd) := foldl_gStep_eq sd gInit
  have hnew : (gTotal sd).new = (sd.map (fun nd => nd.2.new.total)).sum := by
    rw [hg]; simpa [gStep, gInit] using h1
  have hext : (gTotal sd).ext =
      (sd.map (fun nd => nd.2.existing.total)).sum := by
    rw [hg]; simpa [gStep, gInit] using h6
  have hnc : (gTotal sd).newCritical =
      (sd.map (fun nd => nd.2.new.critical)).sum := by
    rw [hg]; simpa [gStep, gInit] using h2
  have hnh : (gTotal sd).newHigh =
      (sd.map (fun nd => nd.2.new.high)).sum := by
    rw [hg]; simpa [gStep, gInit] using h3
  have hnm : (gTotal sd).newMedium =
      (sd.map (fun nd => nd.2.new.medium)).sum := by
    rw [hg]; simpa [gStep, gInit] using h4
  have hnl : (gTotal sd).newLow =
      (sd.map (fun nd => nd.2.new.low)).sum := by
    rw [hg]; simpa [gStep, gInit] using h5
  have hec : (gTotal sd).extCritical =
      (sd.map (fun nd => nd.2.existing.critical)).sum := by
    rw [hg]; simpa [gStep, gInit] using h7
  have heh : (gTotal sd).extHigh =
      (sd.map (fun nd => nd.2.existing.high)).sum := by
    rw [hg]; simpa [gStep, gInit] using h8
  have hem : (gTotal sd).extMedium =
      (sd.map (fun nd => nd.2.existing.medium)).sum := by
    rw [hg]; simpa [gStep, gInit] using h9
  have hel : (gTotal sd).extLow =
      (sd.map (fun nd => nd.2.existing.low)).sum := by
    rw [hg]; simpa [gStep, gInit] using h10
  refine ⟨?_, ?_, ?_, ?_, ?_, ?_, ?_, ?_, ?_, ?_, ?_, ?_, ?_, ?_, ?_⟩
  · simpa [tableAGrand, tableARows, List.map_map, Function.comp] using hnew
  · simpa [tableAGrand, tableARows, List.map_map, Function.comp] using hext
  · simp only [tableAGrand, tableARows, List.map_map, Function.comp]
    rw [hnew, hext]
    exact (sum_map_add (fun nd => nd.2.new.total)
      (fun nd => nd.2.existing.total) sd).symm
  · simpa [tableBGrand, tableBRows, List.map_map, Function.comp] using hnc
  · simpa [tableBGrand, tableBRows, List.map_map, Function.comp] using hnh
  · simpa [tableBGrand, tableBRows, List.map_map, Function.comp] using hnm
  · simpa [tableBGrand, tableBRows, List.map_map, Function.comp] using hnl
  · simpa [tableBGrand, tableBRows, List.map_map, Function.comp] using hnew
  · simpa [tableCGrand, tableCRows, List.map_map, Function.comp] using hec
  · simpa [tableCGrand, tableCRows, List.map_map, Function.comp] using heh
  · simpa [tableCGrand, tableCRows, List.map_map, Function.comp] using hem
  · simpa [tableCGrand, tableCRows, List.map_map, Function.comp] using hel
  · simpa [tableCGrand, tableCRows, List.map_map, Function.comp] using hext
  · simpa [tableAGrand, tableBRows, List.map_map, Function.comp] using hnew
  · simpa [tableAGrand, tableCRows, List.map_map, Function.comp] using hext

/-- Claim C3: every row of the pipeline-1 output carries a non-null
Total_Count, and that Total_Count equals the sum of Per_Host_Count over
all output rows sharing the row's (Name, Risk) key. -/
theorem c3_total_count_invariant (recs : List P1Record) (row : ReportRow)
    (hrow : row ∈ (p1Process recs).rows) :
    row.totalCount ≠ none ∧
    row.totalCount = some
      ((((p1Process recs).rows.filter
          (fun r => decide (r.name = row.name ∧ r.risk = row.risk))).map
        (fun r => r.perHost)).sum) := by
  by_cases hfil : p1Filtered recs = []
  · have hnil : (p1Process recs).rows = [] := by
      unfold p1Process
      rw [if_pos hfil]
    rw [hnil] at hrow
    exact absurd hrow (List.not_mem_nil row)
  · have hrows : (p1Process recs).rows = p1ReportRows recs := by
      unfold p1Process
      rw [if_neg hfil]
    rw [hrows] at hrow ⊢
    have hperm : List.Perm (p1ReportRows recs)
        ((detailKeys recs).map (mkRow recs)) :=
      List.perm_insertionSort p1Le ((detailKeys recs).map (mkRow recs))
    have hmem : row ∈ (detailKeys recs).map (mkRow recs) :=
      hperm.mem_iff.mp hrow
    obtain ⟨t, htD, hrowEq⟩ := List.mem_map.mp hmem
    have htT : t ∈ (p1Filtered recs).map tripleOf :=
      mem_of_mem_keepFirstByAux (fun a => a) htD
    obtain ⟨rec, hrecF, hrect⟩ := List.mem_map.mp htT
    subst hrect
    subst hrowEq
    have hpairP : (rec.name, rec.risk) ∈ (p1Filtered recs).map pairOf :=
      List.mem_map.mpr ⟨rec, hrecF, rfl⟩
    have hpairK : (rec.name, rec.risk) ∈ summaryKeys recs :=
      mem_keepFirstByAux_id.mpr ⟨hpairP, List.not_mem_nil _⟩
    have hlook : alookup (rec.name, rec.risk) (summaryList recs) =
        some (summaryCount recs (rec.name, rec.risk)) := by
      unfold summaryList
      exact alookup_map_self (summaryCount recs) (summaryKeys recs)
        (rec.name, rec.risk) hpairK
    have hnodup : (detailKeys recs).Nodup :=
      nodup_keepFirstByAux_id ((p1Filtered recs).map tripleOf) []
    have hsub : ∀ x, x ∈ (p1Filtered recs).map tripleOf →
        x ∈ detailKeys recs := by
      intro x hx
      exact mem_keepFirstByAux_id.mpr ⟨hx, List.not_mem_nil _⟩
    have hpart := sum_countP_partition (detailKeys recs) hnodup
      ((p1Filtered recs).map tripleOf)
      (fun t' => decide (t'.1 = rec.name ∧ t'.2.1 = rec.risk)) hsub
    have hfm : ((detailKeys recs).map (mkRow recs)).filter
          (fun r => decide (r.name = rec.name ∧ r.risk = rec.risk)) =
        ((detailKeys recs).filter
          (fun t' => decide (t'.1 = rec.name ∧ t'.2.1 = rec.risk))).map
          (mkRow recs) := by
      rw [List.filter_map]
      exact congrArg (List.map (mkRow recs))
        (List.filter_congr (fun a _ => rfl))
    have hmm2 : (((detailKeys recs).filter
          (fun t' => decide (t'.1 = rec.name ∧ t'.2.1 = rec.risk))).map
          (mkRow recs)).map (fun r => r.perHost) =
        ((detailKeys recs).filter
          (fun t' => decide (t'.1 = rec.name ∧ t'.2.1 = rec.risk))).map
          (fun t' => ((p1Filtered recs).map tripleOf).countP
            (fun x => decide (x = t'))) := by
      rw [List.map_map]
      rfl
    have hcnt : ((p1Filtered recs).map tripleOf).countP
          (fun t' => decide (t'.1 = rec.name ∧ t'.2.1 = rec.risk)) =
        summaryCount recs (rec.name, rec.risk) := by
      unfold summaryCount
      rw [List.countP_map, List.countP_map]
      refine List.countP_congr ?_
      intro a _
      simp [Function.comp, tripleOf, pairOf, Prod.ext_iff]
    have hsum : (((p1ReportRows recs).filter
          (fun r => decide (r.name = rec.name ∧ r.risk = rec.risk))).map
          (fun r => r.perHost)).sum =
        summaryCount recs (rec.name, rec.risk) := by
      have hpermf := List.Perm.sum_eq (List.Perm.map (fun r => r.perHost)
        (List.Perm.filter
          (fun r => decide (r.name = rec.name ∧ r.risk = rec.risk)) hperm))
      rw [hpermf, hfm, hmm2, hpart, hcnt]
    constructor
    · intro hcon
      have hcon2 : alookup (rec.name, rec.risk) (summaryList recs) =
          none := hcon
      rw [hlook] at hcon2
      exact Option.some_ne_none _ hcon2
    · exact Eq.trans hlook (congrArg some hsum.symm)

/-- Witness for C3 on a two-host input: the H1 row carries
Total_Count 2 = 1 + 1. -/
theorem c3_total_count_invariant_witness :
    (⟨"A", "Critical", some 2, "H1", 1⟩ : ReportRow) ∈
      (p1Process [⟨"A", "Critical", "H1", "80"⟩,
        ⟨"A", "Critical", "H2", "80"⟩]).rows ∧
    ((⟨"A", "Critical", some 2, "H1", 1⟩ : ReportRow).totalCount ≠ none ∧
      (⟨"A", "Critical", some 2, "H1", 1⟩ : ReportRow).totalCount = some
        ((((p1Process [⟨"A", "Critical", "H1", "80"⟩,
              ⟨"A", "Critical", "H2", "80"⟩]).rows.filter
            (fun r => decide (r.name = "A" ∧ r.risk = "Critical"))).map
          (fun r => r.perHost)).sum)) := by
  have hrowsEq : (p1Process [⟨"A", "Critical", "H1", "80"⟩,
        ⟨"A", "Critical", "H2", "80"⟩]).rows =
      [⟨"A", "Critical", some 2, "H1", 1⟩,
       ⟨"A", "Critical", some 2, "H2", 1⟩] := by decide
  have hmem : (⟨"A", "Critical", some 2, "H1", 1⟩ : ReportRow) ∈
      (p1Process [⟨"A", "Critical", "H1", "80"⟩,
        ⟨"A", "Critical", "H2", "80"⟩]).rows := by
    rw [hrowsEq]
    exact List.mem_cons_self _ _
  exact ⟨hmem,
    c3_total_count_invariant
      [⟨"A", "Critical", "H1", "80"⟩, ⟨"A", "Critical", "H2", "80"⟩]
      ⟨"A", "Critical", some 2, "H1", 1⟩ hmem⟩
